import Mathlib

/-!
Verification of the Musibro music-recommendation pipeline (`src/ml/models.py`,
`src/ml/debiasing.py`, `src/ml/evaluation.py`) against its natural-language
specification.  The Python code is shallowly embedded: lists of dictionaries
become lists of structures, Python dicts become insertion-ordered association
lists, Python floats become rationals (or reals where the source uses
transcendental functions such as `exp` and `log2`), and the blanket
try/except wrappers become `Except` values whose error payload records the
state of the caller-visible list at the moment the exception is raised.
-/

namespace Musibro

/-! ## Python modelling helpers -/

/-- Stable insertion for a descending sort: `x` is placed before the first
element whose key is not greater than the key of `x`.  This models the
behaviour of Python `sorted(..., key=key, reverse=True)` / `list.sort`,
which is a stable sort (ties keep their original relative order). -/
def insertDescBy {α β : Type} [LinearOrder β] (key : α → β) (x : α) : List α → List α
  | [] => [x]
  | y :: ys => if key y ≤ key x then x :: y :: ys else y :: insertDescBy key x ys

/-- Stable descending sort by a key, modelling Python
`sorted(l, key=key, reverse=True)`. -/
def sortDescBy {α β : Type} [LinearOrder β] (key : α → β) : List α → List α
  | [] => []
  | x :: xs => insertDescBy key x (sortDescBy key xs)

/-- Stable insertion for an ascending sort. -/
def insertAscBy {α β : Type} [LinearOrder β] (key : α → β) (x : α) : List α → List α
  | [] => [x]
  | y :: ys => if key x ≤ key y then x :: y :: ys else y :: insertAscBy key x ys

/-- Stable ascending sort by a key, modelling Python `sorted(l, key=key)` /
`l.sort(key=key)`. -/
def sortAscBy {α β : Type} [LinearOrder β] (key : α → β) : List α → List α
  | [] => []
  | x :: xs => insertAscBy key x (sortAscBy key xs)

/-- Python `int(q)` on a float/rational: truncation toward zero. -/
def pyInt (q : ℚ) : ℤ := if 0 ≤ q then ⌊q⌋ else ⌈q⌉

/-- Python slice `l[n:]` for a possibly negative integer index. -/
def pySliceFrom {α : Type} (l : List α) (n : ℤ) : List α :=
  if 0 ≤ n then l.drop n.toNat else l.drop (l.length - (-n).toNat)

/-- Python slice `l[:n]` for a possibly negative integer index. -/
def pySliceTo {α : Type} (l : List α) (n : ℤ) : List α :=
  if 0 ≤ n then l.take n.toNat else l.take (l.length - (-n).toNat)

/-- Lookup in an insertion-ordered association list, modelling `d.get(k)`
on a Python dict whose keys are unique by construction. -/
def dictGet {α : Type} (d : List (String × α)) (k : String) : Option α :=
  (d.find? (fun p => p.1 = k)).map Prod.snd

/-- Model of `d[k] = d.get(k, 0) + v` on an insertion-ordered Python dict:
an existing key keeps its position and its value is incremented, a new key
is appended at the end. -/
def dictUpsertAdd (d : List (String × ℚ)) (k : String) (v : ℚ) : List (String × ℚ) :=
  if d.any (fun p => p.1 = k) then
    d.map (fun p => if p.1 = k then (p.1, p.2 + v) else p)
  else d ++ [(k, v)]

/-- Model of `if k in d: d[k] += v` — only an existing key is updated. -/
def dictAddIfPresent (d : List (String × ℚ)) (k : String) (v : ℚ) : List (String × ℚ) :=
  d.map (fun p => if p.1 = k then (p.1, p.2 + v) else p)

/-- Model of `d[k] = v` on an insertion-ordered Python dict (last write wins,
position of an existing key preserved). -/
def dictSet {α : Type} (d : List (String × α)) (k : String) (v : α) : List (String × α) :=
  if d.any (fun p => p.1 = k) then
    d.map (fun p => if p.1 = k then (p.1, v) else p)
  else d ++ [(k, v)]

/-! ## models.py: content-based filtering, popularity recommender, hybrid blender -/

namespace ContentBasedFiltering

/-- State of a `ContentBasedFiltering` instance: the fitted item ids and the
similarity matrix (`None` before `fit` was called; the matrix rows are the
pairwise similarity scores the library computes from the numeric features). -/
structure Model where
  itemIds : List String
  simMatrix : Option (List (List ℚ))

/-- Embedding of `ContentBasedFiltering.get_similar_items` (models.py lines
140-168).  An unfitted model raises `ValueError`, which the blanket handler
turns into `[]`; an unknown item id returns `[]`.  Otherwise the indices are
sorted by similarity (`np.argsort` ascending, modelled as a stable argsort,
then reversed), the item itself — the first entry — is dropped, and the next
`n` indices are returned as (item id, similarity) pairs. -/
def getSimilarItems (m : Model) (itemId : String) (n : ℕ) : List (String × ℚ) :=
  match m.simMatrix with
  | none => []
  | some mat =>
    match m.itemIds.findIdx? (fun x => x = itemId) with
    | none => []
    | some idx =>
      let sims := mat.getD idx []
      let order := (sortAscBy (fun i => sims.getD i 0) (List.range sims.length)).reverse
      let chosen := (order.drop 1).take n
      chosen.map (fun i => (m.itemIds.getD i "", sims.getD i 0))

/-- Embedding of `ContentBasedFiltering.recommend_for_user` (models.py lines
170-199): for each liked item the similar items are fetched
(`n_recommendations * 2` of them), already-liked ids are skipped, similarity
scores are accumulated per item id, and the aggregate is sorted descending
(Python `sorted`, stable) and truncated to `n_recommendations`. -/
def recommendForUser (m : Model) (userLikedItems : List String) (n : ℕ) :
    List (String × ℚ) :=
  if userLikedItems = [] then []
  else
    let allRecommendations :=
      userLikedItems.foldl (fun acc itemId =>
        (getSimilarItems m itemId (n * 2)).foldl (fun acc2 p =>
          if p.1 ∈ userLikedItems then acc2 else dictUpsertAdd acc2 p.1 p.2) acc) []
    (sortDescBy Prod.snd allRecommendations).take n

end ContentBasedFiltering

namespace PopularityBasedRecommender

/-- Embedding of `PopularityBasedRecommender.get_popular_items` (models.py
lines 411-422) over the fitted `item_popularity` dict. -/
def getPopularItems (itemPopularity : List (String × ℚ)) (n : ℕ) : List (String × ℚ) :=
  (sortDescBy Prod.snd itemPopularity).take n

end PopularityBasedRecommender

namespace HybridRecommendationSystem

/-- The fixed source weights of the hybrid system (`self.weights`). -/
structure Weights where
  collaborative : ℚ
  content : ℚ
  popularity : ℚ
  diversity : ℚ

/-- State of a fitted `HybridRecommendationSystem`.  The neural collaborative
filtering model is an external scikit-learn regressor; its per-item
predictions for the encoded items are therefore carried as data
(`ncfScores`, `none` when `self.ncf_model` is `None`).  The
`diversityHash` field carries the implementation-defined Python `hash`
function on item ids, used by `DiversityInjector.calculate_diversity_scores`
(debiasing.py lines 463-479) to produce `hash(item_id) % 1000 / 1000`; the
field is `none` when `self.diversity_injector` is `None`. -/
structure System where
  weights : Weights
  userEncoder : List String
  ncfScores : Option (List (String × ℚ))
  contentModel : ContentBasedFiltering.Model
  itemPopularity : List (String × ℚ)
  diversityHash : Option (String → ℤ)

/-- Embedding of `HybridRecommendationSystem._get_collaborative_scores`
(models.py lines 305-336): predictions over all encoded items, sorted
descending by score and truncated. -/
def getCollaborativeScores (sys : System) (userId : String) (nItems : ℕ) :
    List (String × ℚ) :=
  if userId ∈ sys.userEncoder then
    match sys.ncfScores with
    | some preds => (sortDescBy Prod.snd preds).take nItems
    | none => []
  else []

/-- The `all_scores` dict of `HybridRecommendationSystem.recommend`
(models.py lines 259-283) just before the final sort: collaborative,
content-based and popularity scores are accumulated with their weights, then
an optional diversity adjustment is added to the already present keys. -/
def allScores (sys : System) (userId : String) (userLikedItems : List String)
    (n : ℕ) (diversityBoost : ℚ) : List (String × ℚ) :=
  let s1 :=
    if sys.ncfScores.isSome ∧ userId ∈ sys.userEncoder then
      (getCollaborativeScores sys userId (n * 2)).foldl
        (fun d p => dictUpsertAdd d p.1 (p.2 * sys.weights.collaborative)) []
    else []
  let cbScores := ContentBasedFiltering.recommendForUser sys.contentModel userLikedItems (n * 2)
  let s2 := cbScores.foldl (fun d p => dictUpsertAdd d p.1 (p.2 * sys.weights.content)) s1
  let popScores := PopularityBasedRecommender.getPopularItems sys.itemPopularity (n * 2)
  let s3 := popScores.foldl (fun d p => dictUpsertAdd d p.1 (p.2 * sys.weights.popularity)) s2
  if 0 < diversityBoost then
    match sys.diversityHash with
    | some pyHash =>
      let diversityScores :=
        (s3.map Prod.fst).map (fun id => (id, ((pyHash id % 1000 : ℤ) : ℚ) / 1000))
      diversityScores.foldl (fun d p => dictAddIfPresent d p.1 (p.2 * diversityBoost)) s3
    | none => s3
  else s3

/-- Embedding of `HybridRecommendationSystem.recommend` (models.py lines
256-303): the accumulated score dict is sorted descending by score (stable)
and the first `n_recommendations` entries are returned.  The Python code
wraps each pair into a dict that also carries a wall-clock timestamp; the
timestamp is environment-dependent and not part of any claim, so the
embedding returns the (item id, score) pairs. -/
def recommend (sys : System) (userId : String) (userLikedItems : List String)
    (n : ℕ) (diversityBoost : ℚ) : List (String × ℚ) :=
  (sortDescBy Prod.snd (allScores sys userId userLikedItems n diversityBoost)).take n

end HybridRecommendationSystem

/-! ## debiasing.py: popularity debiaser -/

namespace PopularityDebiaser

/-- The fitted `popularity_stats` of a `PopularityDebiaser` (the percentile
entries are never read by the debiasing path and are omitted). -/
structure PopStats where
  mean : ℝ
  min : ℝ
  max : ℝ

/-- Embedding of `PopularityDebiaser._calculate_popularity_penalty`
(debiasing.py lines 72-89) for a fitted debiaser: the popularity is
normalised into [0, 1] by the fitted min/max (0.5 when the range is
degenerate) and fed through the sigmoid `1 / (1 + exp(-10 * (x - 0.5)))`. -/
noncomputable def popularityPenalty (stats : PopStats) (popularity : ℝ) : ℝ :=
  let popRange := stats.max - stats.min
  let normalizedPop := if 0 < popRange then (popularity - stats.min) / popRange else 0.5
  1 / (1 + Real.exp (-10 * (normalizedPop - 0.5)))

/-- The per-track score update of `PopularityDebiaser.debias_scores`
(debiasing.py line 55): `score * (1 - strength * penalty(popularity))`. -/
noncomputable def debiasedScore (strength : ℝ) (stats : PopStats)
    (originalScore popularity : ℝ) : ℝ :=
  originalScore * (1 - strength * popularityPenalty stats popularity)

/-- A recommendation record as read and written by `debias_scores`: the
dict keys it touches, with `none` modelling an absent key. -/
structure PRec where
  itemId : String
  score : Option ℝ
  originalScore : Option ℝ
  popPenalty : Option ℝ

/-- Track metadata as read by `debias_scores`. -/
structure PTrack where
  popularity : Option ℝ

/-- One iteration of the `debias_scores` loop (debiasing.py lines 43-62):
`none` models an uncaught exception at that point — `rec['score']` raising
`KeyError` on a score-less record, or `self.popularity_stats['mean']`
raising `KeyError` on an unfitted debiaser.  Python evaluates the latter
expression **eagerly** as the default argument of
`track_info.get('popularity', ...)`, so an empty `popularity_stats` dict
raises on every record, even when the track supplies its own popularity. -/
noncomputable def debiasRec (strength : ℝ) (stats : Option PopStats)
    (meta : List (String × PTrack)) (r : PRec) : Option PRec :=
  match r.score with
  | none => none
  | some originalScore =>
    match stats with
    | none => none
    | some st =>
      let popFromTrack : Option ℝ :=
        match dictGet meta r.itemId with
        | some t => t.popularity
        | none => none
      let popularity := popFromTrack.getD st.mean
      let penalty := popularityPenalty st popularity
      some { r with score := some (originalScore * (1 - strength * penalty)),
                    originalScore := some originalScore,
                    popPenalty := some penalty }

/-- The `debias_scores` loop over all records; `none` propagates the first
exception. -/
noncomputable def debiasLoop (strength : ℝ) (stats : Option PopStats)
    (meta : List (String × PTrack)) : List PRec → Option (List PRec)
  | [] => some []
  | r :: rs =>
    match debiasRec strength stats meta r with
    | none => none
    | some r2 => (debiasLoop strength stats meta rs).map (fun l => r2 :: l)

/-- Embedding of `PopularityDebiaser.debias_scores` (debiasing.py lines
38-70) up to its blanket exception handler: on success the fresh debiased
list is sorted descending by the new scores; an exception leaves the input
list untouched (the loop only builds a new list from copies), so the error
payload is the unmodified input. -/
noncomputable def debiasScoresE (strength : ℝ) (stats : Option PopStats)
    (recommendations : List PRec) (meta : List (String × PTrack)) :
    Except (List PRec) (List PRec) :=
  match debiasLoop strength stats meta recommendations with
  | none => .error recommendations
  | some l => .ok (sortDescBy (fun r => r.score.getD 0) l)

/-- `debias_scores` including the blanket `except` clause, which returns
the caught state of `recommendations`. -/
noncomputable def debiasScores (strength : ℝ) (stats : Option PopStats)
    (recommendations : List PRec) (meta : List (String × PTrack)) : List PRec :=
  match debiasScoresE strength stats recommendations meta with
  | .ok l => l
  | .error s => s

end PopularityDebiaser

/-! ## debiasing.py: diversity injector -/

namespace DiversityInjector

/-- A recommendation / candidate record as read and written by
`inject_diversity`: the dict keys it touches, with `none` modelling an
absent key (`item_id` itself is modelled as always present). -/
structure DRec where
  itemId : String
  score : Option ℚ
  diversityScore : Option ℚ
  combinedScore : Option ℚ
deriving DecidableEq

/-- Track metadata as read by `_calculate_diversity_score`. -/
structure DTrack where
  genres : List String
  popularity : Option ℚ
  danceability : Option ℚ
  energy : Option ℚ
  valence : Option ℚ
  acousticness : Option ℚ
deriving Inhabited

/-- A fitted user profile as read by `_calculate_diversity_score`: the
preferred-genre keys, the average popularity, and the per-feature means of
`audio_preferences` (absent when the feature never occurred). -/
structure UserProfile where
  preferredGenres : List String
  avgPopularity : ℚ
  danceabilityMean : Option ℚ
  energyMean : Option ℚ
  valenceMean : Option ℚ
  acousticnessMean : Option ℚ

/-- Embedding of `DiversityInjector._calculate_diversity_score`
(debiasing.py lines 397-440): 0.4 × (1 − Jaccard overlap of genre sets,
when both are non-empty) + 0.3 × |popularity − user average| / 100
+ 0.3 × mean absolute difference of the audio features present on both
sides.  Python set cardinalities are modelled by deduplicated lists. -/
def diversityScoreOf (candidate : DRec) (userProfile : UserProfile)
    (meta : List (String × DTrack)) : ℚ :=
  let trackInfo := (dictGet meta candidate.itemId).getD default
  let trackGenres := trackInfo.genres.dedup
  let userGenres := userProfile.preferredGenres.dedup
  let genrePart : ℚ :=
    if trackGenres ≠ [] ∧ userGenres ≠ [] then
      let interCard := (trackGenres.filter (fun g => g ∈ userGenres)).length
      let unionCard := (trackGenres ++ userGenres.filter (fun g => g ∉ trackGenres)).length
      (1 - (interCard : ℚ) / unionCard) * 0.4
    else 0
  let trackPopularity := trackInfo.popularity.getD 0
  let popPart := |trackPopularity - userProfile.avgPopularity| / 100 * 0.3
  let audioDiffs := List.filterMap
    (fun fp : Option ℚ × Option ℚ =>
      match fp.1, fp.2 with
      | some tv, some um => some |tv - um|
      | _, _ => none)
    [(trackInfo.danceability, userProfile.danceabilityMean),
     (trackInfo.energy, userProfile.energyMean),
     (trackInfo.valence, userProfile.valenceMean),
     (trackInfo.acousticness, userProfile.acousticnessMean)]
  let audioPart : ℚ :=
    if audioDiffs ≠ [] then audioDiffs.sum / audioDiffs.length * 0.3 else 0
  genrePart + popPart + audioPart

/-- The `combined_score` assignment for one record (debiasing.py lines
342-346); `none` models the `KeyError` raised by `rec['score']` on a
record without a score (candidates straight from the pool may lack one). -/
def combineRec (strength : ℚ) (r : DRec) : Option DRec :=
  match r.diversityScore with
  | some ds =>
    match r.score with
    | none => none
    | some s => some { r with combinedScore := some (s + ds * strength) }
  | none =>
    match r.score with
    | none => none
    | some s => some { r with combinedScore := some s }

/-- The `combined_score` loop over the merged list. -/
def combineLoop (strength : ℚ) : List DRec → Option (List DRec)
  | [] => some []
  | r :: rs =>
    match combineRec strength r with
    | none => none
    | some r2 => (combineLoop strength rs).map (fun l => r2 :: l)

/-- The state of the caller's `recommendations` list when the
`combined_score` loop raises.  The kept suffix `recommendations[n:]` of the
in-place-sorted list **aliases** the records of `diverse_recommendations`,
and the loop processes that whole suffix (every kept record has a score, so
the first failure is always a score-less pool candidate, which is a copy) —
so at the raise the dropped prefix is untouched while every kept record has
already received its `combined_score`. -/
def combineErrorState (strength : ℚ) (recsSorted : List DRec) (n : ℤ) : List DRec :=
  pySliceTo recsSorted n ++
    (pySliceFrom recsSorted n).map (fun r => (combineRec strength r).getD r)

/-- Embedding of `DiversityInjector.inject_diversity` (debiasing.py lines
307-353) up to its blanket exception handler.  The error payload is the
state of the caller-visible `recommendations` list at the moment the
exception is raised: `recommendations.sort(key=...)` is an **in-place**
sort of the caller's list, so an exception raised in the `combined_score`
loop leaves the caller's list re-sorted ascending by score, with
`combined_score` already set on the kept suffix whose records the merged
list aliases (`combineErrorState`).  A `KeyError` inside the sort itself (a
record without a score) fires while CPython is still pre-computing the
keys, so in that case the list is still in its original order. -/
def injectDiversityE (strength : ℚ) (userProfiles : List (String × UserProfile))
    (userId : String) (recommendations : List DRec) (candidatePool : List DRec)
    (meta : List (String × DTrack)) : Except (List DRec) (List DRec) :=
  match dictGet userProfiles userId with
  | none => .ok recommendations
  | some userProfile =>
    let recommendedIds := recommendations.map DRec.itemId
    let diversityCandidates :=
      (candidatePool.filter (fun c => c.itemId ∉ recommendedIds)).map
        (fun c => { c with diversityScore := some (diversityScoreOf c userProfile meta) })
    let candidatesSorted :=
      sortDescBy (fun c => c.diversityScore.getD 0) diversityCandidates
    let nReplacements := pyInt (recommendations.length * strength)
    if recommendations.any (fun r => r.score.isNone) then .error recommendations
    else
      let recsSorted := sortAscBy (fun r => r.score.getD 0) recommendations
      let diverse :=
        pySliceFrom recsSorted nReplacements ++ pySliceTo candidatesSorted nReplacements
      match combineLoop strength diverse with
      | none => .error (combineErrorState strength recsSorted nReplacements)
      | some combined => .ok (sortDescBy (fun r => r.combinedScore.getD 0) combined)

/-- `inject_diversity` including the blanket `except` clause, which returns
the caught state of `recommendations`. -/
def injectDiversity (strength : ℚ) (userProfiles : List (String × UserProfile))
    (userId : String) (recommendations : List DRec) (candidatePool : List DRec)
    (meta : List (String × DTrack)) : List DRec :=
  match injectDiversityE strength userProfiles userId recommendations candidatePool meta with
  | .ok l => l
  | .error s => s

end DiversityInjector

/-! ## debiasing.py: fairness constraint enforcer -/

namespace FairnessConstraintEnforcer

/-- A recommendation record as read and written by `enforce_fairness`. -/
structure FRec where
  itemId : String
  score : ℚ
  needsNicheReplacement : Bool
deriving DecidableEq

/-- Track metadata as read by `enforce_fairness`. -/
structure FTrack where
  artistId : Option String

/-- Artist metadata as read by `enforce_fairness`. -/
structure FArtist where
  genres : List String

/-- The fitted `artist_stats` buckets. -/
structure ArtistStats where
  niche : List String
  emerging : List String
  established : List String
  mainstream : List String

/-- The `current_artists` list built at the top of `enforce_fairness`
(debiasing.py lines 148-158): the artist id of each recommended track that
has one. -/
def currentArtists (recs : List FRec) (trackMeta : List (String × FTrack)) : List String :=
  recs.filterMap (fun r => (dictGet trackMeta r.itemId).bind FTrack.artistId)

/-- The size of the `current_genres` set accumulated alongside
`current_artists`. -/
def currentGenresCount (recs : List FRec) (trackMeta : List (String × FTrack))
    (artistMeta : List (String × FArtist)) : ℕ :=
  (((currentArtists recs trackMeta).map
      (fun a => ((dictGet artistMeta a).map FArtist.genres).getD [])).flatten).dedup.length

/-- The niche-artist proportion computed by `_check_fairness_violations`
(debiasing.py lines 179-181): distinct niche artists of the list divided by
the (with-multiplicity) length of `current_artists`, 0 for an empty list. -/
def nicheFraction (stats : ArtistStats) (recs : List FRec)
    (trackMeta : List (String × FTrack)) : ℚ :=
  let arts := currentArtists recs trackMeta
  let nicheCount := (arts.dedup.filter (fun a => a ∈ stats.niche)).length
  if arts ≠ [] then (nicheCount : ℚ) / arts.length else 0

/-- Mark the records at the given indices with `needs_niche_replacement`. -/
def markNiche (recs : List FRec) (idxs : List ℕ) : List FRec :=
  recs.enum.map (fun p =>
    if p.1 ∈ idxs then { p.2 with needsNicheReplacement := true } else p.2)

/-- Embedding of `FairnessConstraintEnforcer._apply_fairness_corrections`
(debiasing.py lines 200-232): when the niche violation is present, the
first `int(len(recs) * deficit)` mainstream-artist positions are flagged
for replacement; the genre-diversity violation is handled by `pass`. -/
def applyFairnessCorrections (stats : ArtistStats) (recs : List FRec)
    (trackMeta : List (String × FTrack)) (hasNicheViolation : Bool) (deficit : ℚ) :
    List FRec :=
  if hasNicheViolation then
    let itemsToReplace := pyInt (recs.length * deficit)
    let mainstreamIndices := recs.enum.filterMap (fun p =>
      match (dictGet trackMeta p.2.itemId).bind FTrack.artistId with
      | some a => if a ∈ stats.mainstream then some p.1 else none
      | none => none)
    markNiche recs (pySliceTo mainstreamIndices itemsToReplace)
  else recs

/-- Embedding of `FairnessConstraintEnforcer.enforce_fairness` (debiasing.py
lines 143-173): check the two violations and apply the corrections when any
is present. -/
def enforceFairness (minNicheFraction : ℚ) (minDiverseGenres : ℕ) (stats : ArtistStats)
    (recs : List FRec) (trackMeta : List (String × FTrack))
    (artistMeta : List (String × FArtist)) : List FRec :=
  let frac := nicheFraction stats recs trackMeta
  let genreCount := currentGenresCount recs trackMeta artistMeta
  if frac < minNicheFraction ∨ genreCount < minDiverseGenres then
    applyFairnessCorrections stats recs trackMeta
      (decide (frac < minNicheFraction)) (minNicheFraction - frac)
  else recs

end FairnessConstraintEnforcer

/-! ## Evaluation: Gini coefficient (`RecommendationEvaluator._calculate_gini_coefficient`) -/

namespace RecommendationEvaluator

/-- Embedding of `_calculate_gini_coefficient` (evaluation.py lines 544-561).
The Python code sorts the values ascending, then computes
`(n + 1 - 2 * sum((n + 1 - i) * y for i, y in enumerate(sorted_values))) / (n * sum(sorted_values))`
with a 0-based `enumerate` index.  Inputs of length 0 or 1 return 0.
(When the values sum to 0 the Python division raises `ZeroDivisionError`,
which the blanket handler turns into 0.0; rational division by zero is 0
in Lean, so the two agree on that degenerate path as well.) -/
def giniCoefficient (values : List ℚ) : ℚ :=
  if values = [] ∨ values.length = 1 then 0
  else
    let sortedValues := sortAscBy (fun y : ℚ => y) values
    let n : ℚ := sortedValues.length
    let weighted : ℚ :=
      ((sortedValues.enum).map (fun p => (n + 1 - (p.1 : ℚ)) * p.2)).sum
    (n + 1 - 2 * weighted) / (n * sortedValues.sum)

/-- A ground-truth entry as read by the accuracy metrics: the item id and
the optional `rating` key (`gt.get('rating', 1)` defaults to 1). -/
structure GTEntry where
  itemId : String
  rating : Option ℚ
deriving DecidableEq

/-- A recommendation record as read by the accuracy metrics — only the
`item_id` key is accessed. -/
structure EvalRec where
  itemId : String
deriving DecidableEq

/-- The dict comprehension
`{gt['item_id']: gt.get('rating', 1) for gt in ground_truth}` of
`_calculate_ndcg` (evaluation.py line 102): insertion-ordered, a repeated
id keeps its first position and takes the last rating. -/
def gtDict (groundTruth : List GTEntry) : List (String × ℚ) :=
  groundTruth.foldl (fun d e => dictSet d e.itemId (e.rating.getD 1)) []

/-- `math.log2`. -/
noncomputable def log2R (x : ℝ) : ℝ := Real.log x / Real.log 2

/-- The DCG loop of `_calculate_ndcg` (evaluation.py lines 105-109): the
running index `i` discounts by `log2(i + 2)`, and only strictly positive
relevances contribute. -/
noncomputable def dcgAux (gtD : List (String × ℚ)) : List EvalRec → ℕ → ℝ
  | [], _ => 0
  | r :: rs, i =>
    (if 0 < (dictGet gtD r.itemId).getD 0 then
      ((dictGet gtD r.itemId).getD 0 : ℝ) / log2R ((i : ℝ) + 2)
    else 0) + dcgAux gtD rs (i + 1)

/-- The IDCG sum of `_calculate_ndcg` (evaluation.py lines 112-113). -/
noncomputable def idcgAux : List ℚ → ℕ → ℝ
  | [], _ => 0
  | rel :: rest, i => (rel : ℝ) / log2R ((i : ℝ) + 2) + idcgAux rest (i + 1)

/-- Embedding of `RecommendationEvaluator._calculate_ndcg` (evaluation.py
lines 98-121): DCG over the first `k` recommendations, IDCG over the `k`
largest ground-truth relevances (the dict values sorted descending), and
their quotient when the IDCG is positive, else 0. -/
noncomputable def calculateNdcg (recommendations : List EvalRec)
    (groundTruth : List GTEntry) (k : ℕ) : ℝ :=
  let gtD := gtDict groundTruth
  let dcg := dcgAux gtD (recommendations.take k) 0
  let idealRelevances := (sortDescBy (fun q : ℚ => q) (gtD.map Prod.snd)).take k
  let idcg := idcgAux idealRelevances 0
  if 0 < idcg then dcg / idcg else 0

/-- The result dict of `_calculate_accuracy_metrics`: the early-return for
an empty ground truth carries only the four metric keys, so the count
fields are optional. -/
structure AccuracyMetrics where
  precision : ℚ
  recallMetric : ℚ
  f1 : ℚ
  ndcg : ℝ
  counts : Option (ℕ × ℕ × ℕ)

/-- Embedding of `RecommendationEvaluator._calculate_accuracy_metrics`
(evaluation.py lines 64-96): an empty ground truth short-circuits to all
zeros; otherwise precision, recall and F1 are computed over the id sets
(modelled as deduplicated lists) and NDCG is delegated with k = 10. -/
noncomputable def calculateAccuracyMetrics (recommendations : List EvalRec)
    (groundTruth : List GTEntry) : AccuracyMetrics :=
  if groundTruth = [] then ⟨0, 0, 0, 0, none⟩
  else
    let recommendedIds := (recommendations.map EvalRec.itemId).dedup
    let groundTruthIds := (groundTruth.map GTEntry.itemId).dedup
    let truePositives := (recommendedIds.filter (fun x => x ∈ groundTruthIds)).length
    let precision : ℚ :=
      if recommendedIds ≠ [] then truePositives / recommendedIds.length else 0
    let recallMetric : ℚ :=
      if groundTruthIds ≠ [] then truePositives / groundTruthIds.length else 0
    let f1 : ℚ :=
      if 0 < precision + recallMetric then
        2 * (precision * recallMetric) / (precision + recallMetric)
      else 0
    ⟨precision, recallMetric, f1, calculateNdcg recommendations groundTruth 10,
      some (truePositives, recommendedIds.length, groundTruthIds.length)⟩

/-- The five scalar metrics `_calculate_overall_quality_score` reads from the
nested evaluation-results mapping, each `none` when the chain of `.get`
lookups finds no value (the default 0 is applied inside the function):
`accuracy.f1`, `diversity.intra_list_diversity`, `novelty.combined_novelty`,
`coverage.genre_coverage` and `bias.overall_bias_score`. -/
structure EvalScores where
  accuracyF1 : Option ℚ
  diversityIntraList : Option ℚ
  noveltyCombined : Option ℚ
  coverageGenre : Option ℚ
  biasOverall : Option ℚ

/-- The weighted linear combination that the specification describes for the
overall quality score: accuracy, diversity, novelty and coverage weighted
0.3 / 0.25 / 0.2 / 0.15, minus 0.1 times the overall bias score.  This
definition follows the words of the spec, to be compared with the code. -/
def specWeightedQuality (e : EvalScores) : ℚ :=
  e.accuracyF1.getD 0 * 0.3 + e.diversityIntraList.getD 0 * 0.25 +
    e.noveltyCombined.getD 0 * 0.2 + e.coverageGenre.getD 0 * 0.15 -
    e.biasOverall.getD 0 * 0.1

/-- Embedding of the `overall_score` entry computed by
`RecommendationEvaluator._calculate_overall_quality_score` (evaluation.py
lines 563-607): the weighted combination, then
`max(0, min(1, quality_score))`. -/
def overallQualityScore (e : EvalScores) : ℚ :=
  let qualityScore :=
    e.accuracyF1.getD 0 * 0.3 + e.diversityIntraList.getD 0 * 0.25 +
      e.noveltyCombined.getD 0 * 0.2 + e.coverageGenre.getD 0 * 0.15 -
      e.biasOverall.getD 0 * 0.1
  max 0 (min 1 qualityScore)

end RecommendationEvaluator

end Musibro

/-! ## Concrete inputs used by the per-claim witnesses and counterexamples -/

/-- Concrete instance exercising C10: a fitted two-item content model where
the model recommends item b to a user who liked item a, and b is indeed not
among the liked items. -/
def cbWitnessModel : Musibro.ContentBasedFiltering.Model :=
  ⟨["a", "b"], some [[2, 1], [1, 2]]⟩

/-- A concrete recommendation record for exercising the diversity injector. -/
def divRecGood : Musibro.DiversityInjector.DRec :=
  { itemId := "t", score := some 1, diversityScore := none, combinedScore := none }

/-- A user profile with no genre or audio preferences and average
popularity 0, as `_build_user_profile` produces for a user whose
interactions reference unknown tracks. -/
def divProfile : Musibro.DiversityInjector.UserProfile :=
  { preferredGenres := [], avgPopularity := 0, danceabilityMean := none,
    energyMean := none, valenceMean := none, acousticnessMean := none }

/-- Recommendation record a with score 2. -/
def divRecA : Musibro.DiversityInjector.DRec :=
  { itemId := "a", score := some 2, diversityScore := none, combinedScore := none }

/-- Recommendation record b with score 1. -/
def divRecB : Musibro.DiversityInjector.DRec :=
  { itemId := "b", score := some 1, diversityScore := none, combinedScore := none }

/-- Record a after the `combined_score` loop has processed it: the caller's
aliased dict with `combined_score` set to its score 2. -/
def divRecAMut : Musibro.DiversityInjector.DRec :=
  { itemId := "a", score := some 2, diversityScore := none, combinedScore := some 2 }

/-- A candidate-pool record without a `score` key: reading `rec['score']`
on it raises `KeyError`. -/
def divRecC : Musibro.DiversityInjector.DRec :=
  { itemId := "c", score := none, diversityScore := none, combinedScore := none }

/-- Artist buckets for the C8 witness: artist M is mainstream, artist N is
niche. -/
def fairStats : Musibro.FairnessConstraintEnforcer.ArtistStats :=
  { niche := ["N"], emerging := [], established := [], mainstream := ["M"] }

/-- A concrete recommendation record for the C8 witness. -/
def fairRec : Musibro.FairnessConstraintEnforcer.FRec :=
  { itemId := "t1", score := 1, needsNicheReplacement := false }

/-- The concrete ground-truth list for the C4 witness: three distinct items
with descending ratings 3, 2 and (by default) 1. -/
def ndcgWitnessGT : List Musibro.RecommendationEvaluator.GTEntry :=
  [⟨"a", some 3⟩, ⟨"b", some 2⟩, ⟨"c", none⟩]

/-! ## Supporting lemmas -/

namespace Musibro

/-! ### Lemmas about the stable sorts -/

theorem length_insertDescBy {α β : Type} [LinearOrder β] (key : α → β) (x : α) :
    ∀ l : List α, (insertDescBy key x l).length = l.length + 1 := by
  intro l
  induction l with
  | nil => rfl
  | cons y ys ih =>
    by_cases h : key y ≤ key x
    · simp [insertDescBy, h]
    · simp [insertDescBy, h, ih]

theorem length_sortDescBy {α β : Type} [LinearOrder β] (key : α → β) :
    ∀ l : List α, (sortDescBy key l).length = l.length := by
  intro l
  induction l with
  | nil => rfl
  | cons x xs ih => simp [sortDescBy, length_insertDescBy, ih]

theorem length_insertAscBy {α β : Type} [LinearOrder β] (key : α → β) (x : α) :
    ∀ l : List α, (insertAscBy key x l).length = l.length + 1 := by
  intro l
  induction l with
  | nil => rfl
  | cons y ys ih =>
    by_cases h : key x ≤ key y
    · simp [insertAscBy, h]
    · simp [insertAscBy, h, ih]

theorem length_sortAscBy {α β : Type} [LinearOrder β] (key : α → β) :
    ∀ l : List α, (sortAscBy key l).length = l.length := by
  intro l
  induction l with
  | nil => rfl
  | cons x xs ih => simp [sortAscBy, length_insertAscBy, ih]

theorem mem_insertDescBy {α β : Type} [LinearOrder β] (key : α → β) (x a : α) :
    ∀ l : List α, a ∈ insertDescBy key x l ↔ a = x ∨ a ∈ l := by
  intro l
  induction l with
  | nil => simp [insertDescBy]
  | cons y ys ih =>
    by_cases h : key y ≤ key x
    · simp [insertDescBy, h]
    · simp [insertDescBy, h, ih]
      tauto

theorem mem_sortDescBy {α β : Type} [LinearOrder β] (key : α → β) (a : α) :
    ∀ l : List α, a ∈ sortDescBy key l ↔ a ∈ l := by
  intro l
  induction l with
  | nil => simp [sortDescBy]
  | cons x xs ih => simp [sortDescBy, mem_insertDescBy, ih]

theorem pairwise_insertDescBy {α β : Type} [LinearOrder β] (key : α → β) (x : α)
    {l : List α} (h : l.Pairwise (fun a b => key b ≤ key a)) :
    (insertDescBy key x l).Pairwise (fun a b => key b ≤ key a) := by
  induction l with
  | nil => simp [insertDescBy]
  | cons y ys ih =>
    rcases List.pairwise_cons.mp h with ⟨hy, hys⟩
    simp only [insertDescBy]
    by_cases hxy : key y ≤ key x
    · rw [if_pos hxy]
      refine List.pairwise_cons.mpr ⟨?_, h⟩
      intro z hz
      rcases List.mem_cons.mp hz with rfl | hz
      · exact hxy
      · exact le_trans (hy z hz) hxy
    · rw [if_neg hxy]
      refine List.pairwise_cons.mpr ⟨?_, ih hys⟩
      intro z hz
      rcases (mem_insertDescBy key x z ys).mp hz with rfl | hz
      · exact le_of_lt (lt_of_not_le hxy)
      · exact hy z hz

theorem pairwise_sortDescBy {α β : Type} [LinearOrder β] (key : α → β) :
    ∀ l : List α, (sortDescBy key l).Pairwise (fun a b => key b ≤ key a) := by
  intro l
  induction l with
  | nil => simp [sortDescBy]
  | cons x xs ih => exact pairwise_insertDescBy key x ih

theorem filter_insertDescBy {α β : Type} [LinearOrder β] (key : α → β) (x : α) (q : β) :
    ∀ l : List α,
      (insertDescBy key x l).filter (fun a => key a = q) =
        (if key x = q then [x] else []) ++ l.filter (fun a => key a = q) := by
  intro l
  induction l with
  | nil => by_cases h : key x = q <;> simp [insertDescBy, List.filter, h]
  | cons y ys ih =>
    simp only [insertDescBy]
    by_cases hxy : key y ≤ key x
    · rw [if_pos hxy]
      by_cases h : key x = q
      · simp [List.filter_cons, h]
      · simp [List.filter_cons, h]
    · rw [if_neg hxy]
      have hlt : key x < key y := lt_of_not_le hxy
      by_cases hy : key y = q
      · -- then key x ≠ q because key x < key y = q
        have hx : ¬ key x = q := by
          intro hx; rw [hx, hy] at hlt; exact lt_irrefl q hlt
        simp [List.filter_cons, hy, hx, ih]
      · simp [List.filter_cons, hy, ih]

/-- Stability of the descending sort: the elements having any fixed key value
appear in the output in exactly their original input order. -/
theorem filter_sortDescBy {α β : Type} [LinearOrder β] (key : α → β) (q : β) :
    ∀ l : List α,
      (sortDescBy key l).filter (fun a => key a = q) = l.filter (fun a => key a = q) := by
  intro l
  induction l with
  | nil => rfl
  | cons x xs ih =>
    by_cases h : key x = q
    · simp [sortDescBy, filter_insertDescBy, h, List.filter_cons, ih]
    · simp [sortDescBy, filter_insertDescBy, h, List.filter_cons, ih]

/-- Sorting an already descending-sorted list leaves it unchanged. -/
theorem sortDescBy_eq_self {α β : Type} [LinearOrder β] (key : α → β) :
    ∀ {l : List α}, l.Pairwise (fun a b => key b ≤ key a) → sortDescBy key l = l := by
  intro l
  induction l with
  | nil => intro _; rfl
  | cons x xs ih =>
    intro h
    rcases List.pairwise_cons.mp h with ⟨hx, hxs⟩
    rw [sortDescBy, ih hxs]
    cases xs with
    | nil => rfl
    | cons y ys =>
      have : key y ≤ key x := hx y (List.mem_cons_self y ys)
      simp [insertDescBy, this]

/-- Any pair in `dictUpsertAdd d k v` either has key `k` or a key already
present in `d`. -/
theorem fst_mem_of_mem_dictUpsertAdd {d : List (String × ℚ)} {k : String} {v : ℚ}
    {p : String × ℚ} (hp : p ∈ dictUpsertAdd d k v) : p.1 = k ∨ p.1 ∈ d.map Prod.fst := by
  unfold dictUpsertAdd at hp
  by_cases h : d.any (fun q => q.1 = k)
  · rw [if_pos h] at hp
    rcases List.mem_map.mp hp with ⟨q, hq, hpq⟩
    by_cases hqk : q.1 = k
    · rw [if_pos hqk] at hpq
      left; rw [← hpq]; exact hqk
    · rw [if_neg hqk] at hpq
      right; rw [← hpq]; exact List.mem_map_of_mem Prod.fst hq
  · rw [if_neg h] at hp
    rcases List.mem_append.mp hp with h1 | h1
    · right; exact List.mem_map_of_mem Prod.fst h1
    · left; rw [List.mem_singleton.mp h1]

end Musibro

namespace Musibro.ContentBasedFiltering

/-- The inner accumulation loop of `recommend_for_user` only ever adds keys
that are not liked items. -/
theorem inner_fold_not_liked (liked : List String) (sims : List (String × ℚ)) :
    ∀ acc : List (String × ℚ), (∀ q ∈ acc, q.1 ∉ liked) →
      ∀ q ∈ sims.foldl
          (fun acc2 p => if p.1 ∈ liked then acc2 else dictUpsertAdd acc2 p.1 p.2) acc,
        q.1 ∉ liked := by
  induction sims with
  | nil => intro acc hacc q hq; exact hacc q hq
  | cons s ss ih =>
    intro acc hacc q hq
    simp only [List.foldl_cons] at hq
    refine ih _ ?_ q hq
    intro r hr
    by_cases hs : s.1 ∈ liked
    · rw [if_pos hs] at hr; exact hacc r hr
    · rw [if_neg hs] at hr
      rcases fst_mem_of_mem_dictUpsertAdd hr with h | h
      · rw [h]; exact hs
      · rcases List.mem_map.mp h with ⟨r2, hr2, hfst⟩
        rw [← hfst]; exact hacc r2 hr2

/-- The outer loop of `recommend_for_user` preserves the same invariant. -/
theorem outer_fold_not_liked (m : Model) (liked : List String) (k : ℕ) :
    ∀ (ls : List String) (acc : List (String × ℚ)), (∀ q ∈ acc, q.1 ∉ liked) →
      ∀ q ∈ ls.foldl (fun acc itemId =>
          (getSimilarItems m itemId k).foldl
            (fun acc2 p => if p.1 ∈ liked then acc2 else dictUpsertAdd acc2 p.1 p.2) acc) acc,
        q.1 ∉ liked := by
  intro ls
  induction ls with
  | nil => intro acc hacc q hq; exact hacc q hq
  | cons x xs ih =>
    intro acc hacc q hq
    simp only [List.foldl_cons] at hq
    exact ih _ (inner_fold_not_liked liked (getSimilarItems m x k) acc hacc) q hq

end Musibro.ContentBasedFiltering

/-- C2: the spec states that the Gini coefficient of a uniform frequency
distribution is 0 (four artists each appearing once give Gini = 0), but the
code computes `(5 - 2*14) / (4*4) = -23/16` on `[1, 1, 1, 1]`: the
`2 * sum((n + 1 - i) * y)` term is divided by `n * sum` together with the
`n + 1` term instead of being divided by `sum` alone, and the index `i` is
0-based where the textbook formula is 1-based.  The code contradicts its own
docstring (a Gini coefficient lies in [0, 1]). -/
theorem gini_uniform_four_is_not_zero :
    Musibro.RecommendationEvaluator.giniCoefficient [1, 1, 1, 1] = -23 / 16 ∧
      (-23 / 16 : ℚ) ≠ 0 := by
  constructor
  · have h4 : ¬(([1, 1, 1, 1] : List ℚ) = [] ∨ ([1, 1, 1, 1] : List ℚ).length = 1) := by
      simp
    rw [Musibro.RecommendationEvaluator.giniCoefficient, if_neg h4]
    norm_num [Musibro.sortAscBy, Musibro.insertAscBy, List.enum, List.enumFrom]
  · norm_num

/-- C1: for every fitted hybrid system and every input, the list returned by
`HybridRecommendationSystem.recommend` has at most `n_recommendations`
entries and is sorted by descending combined score; ties are broken by the
original insertion order of the `all_scores` dict, because the final Python
`sorted(..., reverse=True)` is a stable sort — filtering the sorted pool to
any fixed score value yields exactly the corresponding entries of
`all_scores` in their original order. -/
theorem hybrid_recommend_topN_sorted_stable
    (sys : Musibro.HybridRecommendationSystem.System) (userId : String)
    (liked : List String) (n : ℕ) (boost : ℚ) :
    (Musibro.HybridRecommendationSystem.recommend sys userId liked n boost).length ≤ n ∧
    (Musibro.HybridRecommendationSystem.recommend sys userId liked n boost).Pairwise
      (fun a b => b.2 ≤ a.2) ∧
    ∀ q : ℚ,
      (Musibro.sortDescBy Prod.snd
          (Musibro.HybridRecommendationSystem.allScores sys userId liked n boost)).filter
        (fun p => p.2 = q) =
      (Musibro.HybridRecommendationSystem.allScores sys userId liked n boost).filter
        (fun p => p.2 = q) := by
  refine ⟨?_, ?_, ?_⟩
  · rw [Musibro.HybridRecommendationSystem.recommend]
    exact List.length_take_le n _
  · rw [Musibro.HybridRecommendationSystem.recommend]
    exact (Musibro.pairwise_sortDescBy Prod.snd _).sublist (List.take_sublist n _)
  · intro q
    exact Musibro.filter_sortDescBy Prod.snd q _

/-- C10: no item id returned by `ContentBasedFiltering.recommend_for_user`
is a member of the input liked-item list — already liked items are filtered
out before scores are accumulated, so they can never reappear in the
sorted and truncated result. -/
theorem content_recommend_excludes_liked
    (m : Musibro.ContentBasedFiltering.Model) (liked : List String) (n : ℕ)
    (p : String × ℚ)
    (hp : p ∈ Musibro.ContentBasedFiltering.recommendForUser m liked n) :
    p.1 ∉ liked := by
  rw [Musibro.ContentBasedFiltering.recommendForUser] at hp
  by_cases hl : liked = []
  · rw [if_pos hl] at hp
    exact absurd hp (List.not_mem_nil p)
  · rw [if_neg hl] at hp
    have hp2 := (Musibro.mem_sortDescBy Prod.snd p _).mp
      ((List.take_sublist n _).mem hp)
    exact Musibro.ContentBasedFiltering.outer_fold_not_liked m liked (n * 2) liked []
      (by intro q hq; exact absurd hq (List.not_mem_nil q)) p hp2

/-- Witness for C10 at a concrete fitted model: the recommendation (b, 1) is
produced, and the claim instance concludes b is not a liked item. -/
theorem content_recommend_excludes_liked_witness :
    (("b", (1 : ℚ)) ∈ Musibro.ContentBasedFiltering.recommendForUser cbWitnessModel ["a"] 10) ∧
      ("b", (1 : ℚ)).1 ∉ ["a"] :=
  ⟨by decide, content_recommend_excludes_liked cbWitnessModel ["a"] 10 ("b", 1) (by decide)⟩

namespace Musibro.PopularityDebiaser

/-- The popularity penalty is monotone non-decreasing in popularity. -/
theorem popularityPenalty_mono (stats : PopStats) {p1 p2 : ℝ} (hp : p1 ≤ p2) :
    popularityPenalty stats p1 ≤ popularityPenalty stats p2 := by
  have hsig : ∀ x y : ℝ, x ≤ y →
      1 / (1 + Real.exp (-10 * (x - 0.5))) ≤ 1 / (1 + Real.exp (-10 * (y - 0.5))) := by
    intro x y hxy
    have harg : -10 * (y - 0.5) ≤ -10 * (x - 0.5) := by nlinarith
    have hexp : Real.exp (-10 * (y - 0.5)) ≤ Real.exp (-10 * (x - 0.5)) :=
      Real.exp_le_exp.mpr harg
    have hpos : (0 : ℝ) < 1 + Real.exp (-10 * (y - 0.5)) := by positivity
    exact one_div_le_one_div_of_le hpos (by linarith)
  simp only [popularityPenalty]
  by_cases hr : 0 < stats.max - stats.min
  · rw [if_pos hr, if_pos hr]
    refine hsig _ _ ?_
    exact (div_le_div_iff_of_pos_right hr).mpr (sub_le_sub_right hp stats.min)
  · rw [if_neg hr, if_neg hr]

end Musibro.PopularityDebiaser

/-- C3 counterexample: with the default strength 0.5 and a fitted popularity
range [0, 100], a fixed original score of -1 yields a debiased score at
popularity 100 that is strictly greater than at popularity 0, so the
transform is not monotonically non-increasing in popularity for every fixed
original score. -/
theorem debias_score_not_antitone_for_negative_score :
    ¬ (Musibro.PopularityDebiaser.debiasedScore (1 / 2) ⟨50, 0, 100⟩ (-1) 100 ≤
        Musibro.PopularityDebiaser.debiasedScore (1 / 2) ⟨50, 0, 100⟩ (-1) 0) := by
  rw [not_le]
  have h5 : Real.exp (-5) < Real.exp 5 := Real.exp_lt_exp.mpr (by norm_num)
  have hp1 : (0 : ℝ) < 1 + Real.exp (-5) := by positivity
  have hp2 : (0 : ℝ) < 1 + Real.exp 5 := by positivity
  have hdiv : 1 / (1 + Real.exp 5) < 1 / (1 + Real.exp (-5)) :=
    one_div_lt_one_div_of_lt hp1 (by linarith)
  rw [one_div, one_div] at hdiv
  simp only [Musibro.PopularityDebiaser.debiasedScore,
    Musibro.PopularityDebiaser.popularityPenalty]
  norm_num
  linarith

/-- C3 (amended): for a fixed debiasing strength that is non-negative and a
fixed **non-negative** original score, the debiased score
`score * (1 - strength * sigmoid(10 * (normalized_popularity - 0.5)))` is
monotonically non-increasing in the track popularity.  (For a negative
original score the order reverses, see the counterexample.) -/
theorem debias_score_antitone_in_popularity (strength : ℝ)
    (stats : Musibro.PopularityDebiaser.PopStats) (score p1 p2 : ℝ)
    (hstrength : 0 ≤ strength) (hscore : 0 ≤ score) (hp : p1 ≤ p2) :
    Musibro.PopularityDebiaser.debiasedScore strength stats score p2 ≤
      Musibro.PopularityDebiaser.debiasedScore strength stats score p1 := by
  have hpen := Musibro.PopularityDebiaser.popularityPenalty_mono stats hp
  rw [Musibro.PopularityDebiaser.debiasedScore, Musibro.PopularityDebiaser.debiasedScore]
  have hs := mul_le_mul_of_nonneg_left hpen hstrength
  apply mul_le_mul_of_nonneg_left _ hscore
  linarith

/-- Witness for C3 (amended) at strength 0.5, fitted range [0, 100], original
score 1 and popularities 0 ≤ 100. -/
theorem debias_score_antitone_in_popularity_witness :
    (0 : ℝ) ≤ 1 / 2 ∧ (0 : ℝ) ≤ 1 ∧ (0 : ℝ) ≤ 100 ∧
      Musibro.PopularityDebiaser.debiasedScore (1 / 2) ⟨50, 0, 100⟩ 1 100 ≤
        Musibro.PopularityDebiaser.debiasedScore (1 / 2) ⟨50, 0, 100⟩ 1 0 :=
  ⟨by norm_num, by norm_num, by norm_num,
    debias_score_antitone_in_popularity (1 / 2) ⟨50, 0, 100⟩ 1 0 100
      (by norm_num) (by norm_num) (by norm_num)⟩

namespace Musibro

theorem pyInt_nonneg {q : ℚ} (h : 0 ≤ q) : 0 ≤ pyInt q := by
  rw [pyInt, if_pos h]
  exact Int.floor_nonneg.mpr h

theorem pyInt_le_nat {L : ℕ} {q : ℚ} (h0 : 0 ≤ q) (h : q ≤ L) : pyInt q ≤ L := by
  rw [pyInt, if_pos h0]
  calc ⌊q⌋ ≤ ⌊(L : ℚ)⌋ := Int.floor_le_floor h
    _ = L := Int.floor_natCast L

end Musibro

namespace Musibro.DiversityInjector

/-- The `combined_score` loop does not change the number of records when it
succeeds. -/
theorem combineLoop_length (strength : ℚ) :
    ∀ l l2 : List DRec, combineLoop strength l = some l2 → l2.length = l.length := by
  intro l
  induction l with
  | nil =>
    intro l2 h
    simp only [combineLoop, Option.some.injEq] at h
    rw [← h]
  | cons r rs ih =>
    intro l2 h
    rw [combineLoop] at h
    cases hcr : combineRec strength r with
    | none => rw [hcr] at h; exact absurd h (by simp)
    | some r2 =>
      rw [hcr] at h
      cases hcl : combineLoop strength rs with
      | none => rw [hcl] at h; exact absurd h (by simp)
      | some l3 =>
        rw [hcl] at h
        have h2 : r2 :: l3 = l2 := by simpa using h
        rw [← h2, List.length_cons, List.length_cons, ih l3 hcl]

/-- The partially mutated error state of the `combined_score` loop has the
same length as the sorted list it came from. -/
theorem combineErrorState_length (strength : ℚ) (l : List DRec) (n : ℤ) :
    (combineErrorState strength l n).length = l.length := by
  rw [combineErrorState, List.length_append, List.length_map,
    Musibro.pySliceTo, Musibro.pySliceFrom]
  by_cases h : 0 ≤ n
  · rw [if_pos h, if_pos h, List.length_take, List.length_drop]
    omega
  · rw [if_neg h, if_neg h, List.length_take, List.length_drop]
    omega

end Musibro.DiversityInjector

/-- C6: for every input recommendation list and candidate pool (and a
configured diversity strength in [0, 1], as in the documented 0-to-1 range
of the constructor), the list returned by `DiversityInjector.inject_diversity`
is never longer than the input list: on the success path
`int(len * strength)` records are dropped and at most that many candidates
are appended; on every error path the caller's list (same length) is
returned. -/
theorem inject_diversity_never_grows (strength : ℚ)
    (userProfiles : List (String × Musibro.DiversityInjector.UserProfile)) (userId : String)
    (recs pool : List Musibro.DiversityInjector.DRec)
    (meta : List (String × Musibro.DiversityInjector.DTrack))
    (h0 : 0 ≤ strength) (h1 : strength ≤ 1) :
    (Musibro.DiversityInjector.injectDiversity strength userProfiles userId recs pool meta).length
      ≤ recs.length := by
  have hn0 : 0 ≤ Musibro.pyInt (recs.length * strength) :=
    Musibro.pyInt_nonneg (mul_nonneg (Nat.cast_nonneg _) h0)
  have hnL : Musibro.pyInt (recs.length * strength) ≤ recs.length :=
    Musibro.pyInt_le_nat (mul_nonneg (Nat.cast_nonneg _) h0)
      (mul_le_of_le_one_right (Nat.cast_nonneg _) h1)
  have ht : (Musibro.pyInt (recs.length * strength)).toNat ≤ recs.length :=
    Int.toNat_le.mpr hnL
  rw [Musibro.DiversityInjector.injectDiversity, Musibro.DiversityInjector.injectDiversityE]
  cases hprof : Musibro.dictGet userProfiles userId with
  | none =>
    dsimp only
    exact le_rfl
  | some up =>
    dsimp only
    by_cases hany : (recs.any fun r => r.score.isNone) = true
    · rw [if_pos hany]
    · rw [if_neg hany]
      split
      · rename_i l heq
        split at heq
        · exact absurd heq (by simp)
        · rename_i combined hcomb
          injection heq with h2
          rw [← h2, Musibro.length_sortDescBy,
            Musibro.DiversityInjector.combineLoop_length _ _ _ hcomb, List.length_append,
            Musibro.pySliceFrom, Musibro.pySliceTo, if_pos hn0, if_pos hn0,
            List.length_drop, Musibro.length_sortAscBy]
          refine le_trans (Nat.add_le_add_left (List.length_take_le _ _) _) ?_
          omega
      · rename_i s heq
        split at heq
        · rename_i hcomb
          injection heq with h2
          rw [← h2, Musibro.DiversityInjector.combineErrorState_length,
            Musibro.length_sortAscBy]
        · exact absurd heq (by simp)

/-- Witness for C6 at a concrete input: strength 1, no fitted profiles, a
one-element recommendation list. -/
theorem inject_diversity_never_grows_witness :
    (0 : ℚ) ≤ 1 ∧ (1 : ℚ) ≤ 1 ∧
      (Musibro.DiversityInjector.injectDiversity 1 [] "u" [divRecGood] [] []).length ≤
        ([divRecGood] : List Musibro.DiversityInjector.DRec).length :=
  ⟨by norm_num, le_refl 1,
    inject_diversity_never_grows 1 [] "u" [divRecGood] [] [] (by norm_num) (le_refl 1)⟩

/-- C7 counterexample: calling `inject_diversity` with strength 1, a fitted
profile for user u, recommendations [a (score 2), b (score 1)] and a
candidate pool containing a record without a score raises `KeyError` in the
`combined_score` loop — **after** `recommendations.sort(key=score)` has
already re-sorted the caller's list in place.  The blanket handler then
returns the caller's list, which is now [b, a]: not the unmodified input in
its original order [a, b]. -/
theorem inject_diversity_error_path_reorders_input :
    Musibro.DiversityInjector.injectDiversityE 1 [("u", divProfile)] "u"
        [divRecA, divRecB] [divRecC] [] = .error [divRecB, divRecA] ∧
      Musibro.DiversityInjector.injectDiversity 1 [("u", divProfile)] "u"
        [divRecA, divRecB] [divRecC] [] = [divRecB, divRecA] ∧
      ([divRecB, divRecA] : List Musibro.DiversityInjector.DRec) ≠ [divRecA, divRecB] := by
  have hE : Musibro.DiversityInjector.injectDiversityE 1 [("u", divProfile)] "u"
      [divRecA, divRecB] [divRecC] [] = .error [divRecB, divRecA] := by
    rw [Musibro.DiversityInjector.injectDiversityE]
    norm_num [Musibro.dictGet, Musibro.pyInt, Musibro.pySliceFrom, Musibro.pySliceTo,
      Musibro.sortAscBy, Musibro.insertAscBy, Musibro.sortDescBy, Musibro.insertDescBy,
      Musibro.DiversityInjector.combineLoop, Musibro.DiversityInjector.combineRec,
      Musibro.DiversityInjector.combineErrorState, Int.toNat_ofNat, Int.toNat_natCast,
      Musibro.DiversityInjector.diversityScoreOf,
      divProfile, divRecA, divRecB, divRecC, List.find?]
    all_goals decide
  refine ⟨hE, ?_, ?_⟩
  · rw [Musibro.DiversityInjector.injectDiversity, hE]
  · simp [divRecA, divRecB]

/-- C7 (amended): the blanket handlers of `PopularityDebiaser.debias_scores`
and `DiversityInjector.inject_diversity` never propagate an exception — a
list is always returned to the caller.  `debias_scores` builds a fresh list
from copies, so its error path returns the input list unmodified.
`inject_diversity`, however, mutates the caller's list before the point
where the `combined_score` loop can raise — it re-sorts it in place
ascending by score and the merged list aliases its kept suffix — so its
error path returns the caller's list either unchanged (exception before the
sort) or re-sorted with `combined_score` fields already set on the kept
suffix: the same item ids and scores, but neither the original order nor
entirely unmodified records (see the counterexample). -/
theorem debias_inject_error_state (strengthR : ℝ)
    (stats : Option Musibro.PopularityDebiaser.PopStats)
    (precs : List Musibro.PopularityDebiaser.PRec)
    (pmeta : List (String × Musibro.PopularityDebiaser.PTrack))
    (strength : ℚ) (userProfiles : List (String × Musibro.DiversityInjector.UserProfile))
    (userId : String) (drecs pool : List Musibro.DiversityInjector.DRec)
    (dmeta : List (String × Musibro.DiversityInjector.DTrack)) :
    (∀ s, Musibro.PopularityDebiaser.debiasScoresE strengthR stats precs pmeta = .error s →
        s = precs) ∧
    (∀ s, Musibro.DiversityInjector.injectDiversityE strength userProfiles userId
          drecs pool dmeta = .error s →
        s = drecs ∨
          s = Musibro.DiversityInjector.combineErrorState strength
                (Musibro.sortAscBy (fun r => r.score.getD 0) drecs)
                (Musibro.pyInt (drecs.length * strength))) := by
  constructor
  · intro s h
    rw [Musibro.PopularityDebiaser.debiasScoresE] at h
    cases hl : Musibro.PopularityDebiaser.debiasLoop strengthR stats pmeta precs with
    | none =>
      rw [hl] at h
      injection h with h2
      exact h2.symm
    | some l =>
      rw [hl] at h
      exact absurd h (by simp)
  · intro s h
    rw [Musibro.DiversityInjector.injectDiversityE] at h
    cases hprof : Musibro.dictGet userProfiles userId with
    | none =>
      rw [hprof] at h
      exact absurd h (by simp)
    | some up =>
      rw [hprof] at h
      dsimp only at h
      by_cases hany : (drecs.any fun r => r.score.isNone) = true
      · rw [if_pos hany] at h
        injection h with h2
        exact Or.inl h2.symm
      · rw [if_neg hany] at h
        split at h
        · injection h with h2
          exact Or.inr h2.symm
        · exact absurd h (by simp)

/-- Witness for C7 (amended) at a concrete input exercising the mutated
error state: with strength 0.5, recommendations [a (score 2), b (score 1)]
and a score-less pool candidate, one record is kept, the caller's list is
re-sorted to [b, a] and record a receives its `combined_score` before the
candidate raises `KeyError` — the error state is exactly
`combineErrorState`. -/
theorem debias_inject_error_state_witness :
    ([divRecB, divRecAMut] : List Musibro.DiversityInjector.DRec) = [divRecA, divRecB] ∨
      ([divRecB, divRecAMut] : List Musibro.DiversityInjector.DRec) =
        Musibro.DiversityInjector.combineErrorState (1 / 2)
          (Musibro.sortAscBy (fun r => r.score.getD 0) [divRecA, divRecB])
          (Musibro.pyInt (([divRecA, divRecB] :
              List Musibro.DiversityInjector.DRec).length * (1 / 2))) :=
  (debias_inject_error_state 0 none [] [] (1 / 2) [("u", divProfile)] "u"
      [divRecA, divRecB] [divRecC] []).2 [divRecB, divRecAMut]
    (by rw [Musibro.DiversityInjector.injectDiversityE]
        norm_num [Musibro.dictGet, Musibro.pyInt, Musibro.pySliceFrom, Musibro.pySliceTo,
          Musibro.sortAscBy, Musibro.insertAscBy, Musibro.sortDescBy, Musibro.insertDescBy,
          Musibro.DiversityInjector.combineLoop, Musibro.DiversityInjector.combineRec,
          Musibro.DiversityInjector.combineErrorState, Int.toNat_ofNat, Int.toNat_natCast,
          Musibro.DiversityInjector.diversityScoreOf,
          divProfile, divRecA, divRecB, divRecAMut, divRecC, List.find?])

namespace Musibro.FairnessConstraintEnforcer

/-- Marking records for niche replacement changes no item id and no score. -/
theorem markNiche_preserves_proj (idxs : List ℕ) :
    ∀ (recs : List FRec) (k : ℕ),
      ((List.enumFrom k recs).map (fun p =>
          if p.1 ∈ idxs then { p.2 with needsNicheReplacement := true } else p.2)).map
        (fun r => (r.itemId, r.score)) =
      recs.map (fun r => (r.itemId, r.score)) := by
  intro recs
  induction recs with
  | nil => intro k; rfl
  | cons r rs ih =>
    intro k
    simp only [List.enumFrom, List.map_cons]
    rw [ih]
    by_cases h : k ∈ idxs
    · rw [if_pos h]
    · rw [if_neg h]

/-- `_apply_fairness_corrections` changes no item id and no score. -/
theorem applyFairnessCorrections_preserves_proj (stats : ArtistStats) (recs : List FRec)
    (trackMeta : List (String × FTrack)) (hasNicheViolation : Bool) (deficit : ℚ) :
    (applyFairnessCorrections stats recs trackMeta hasNicheViolation deficit).map
        (fun r => (r.itemId, r.score)) =
      recs.map (fun r => (r.itemId, r.score)) := by
  rw [applyFairnessCorrections]
  cases hasNicheViolation with
  | false => rw [if_neg (by simp)]
  | true =>
    rw [if_pos rfl]
    exact markNiche_preserves_proj _ recs 0

end Musibro.FairnessConstraintEnforcer

/-- C8: when the niche-artist proportion of the input list is below the
configured minimum, `FairnessConstraintEnforcer.enforce_fairness` returns a
list with exactly the same item ids, in the same order, with the same
scores — it only sets `needs_niche_replacement` flags on some records and
never removes or replaces one. -/
theorem enforce_fairness_only_flags (minNicheFraction : ℚ) (minDiverseGenres : ℕ)
    (stats : Musibro.FairnessConstraintEnforcer.ArtistStats)
    (recs : List Musibro.FairnessConstraintEnforcer.FRec)
    (trackMeta : List (String × Musibro.FairnessConstraintEnforcer.FTrack))
    (artistMeta : List (String × Musibro.FairnessConstraintEnforcer.FArtist))
    (hviol : Musibro.FairnessConstraintEnforcer.nicheFraction stats recs trackMeta
      < minNicheFraction) :
    (Musibro.FairnessConstraintEnforcer.enforceFairness minNicheFraction minDiverseGenres
        stats recs trackMeta artistMeta).map (fun r => (r.itemId, r.score)) =
      recs.map (fun r => (r.itemId, r.score)) := by
  rw [Musibro.FairnessConstraintEnforcer.enforceFairness]
  rw [if_pos (Or.inl hviol)]
  exact Musibro.FairnessConstraintEnforcer.applyFairnessCorrections_preserves_proj
    stats recs trackMeta _ _

/-- Witness for C8 at a concrete input: a track with no artist metadata, so
the niche proportion 0 is below the minimum 1, and the returned list keeps
the same (item id, score) projection. -/
theorem enforce_fairness_only_flags_witness :
    Musibro.FairnessConstraintEnforcer.nicheFraction fairStats [fairRec] [] < 1 ∧
      (Musibro.FairnessConstraintEnforcer.enforceFairness 1 0 fairStats [fairRec]
          [] []).map (fun r => (r.itemId, r.score)) =
        ([fairRec] : List Musibro.FairnessConstraintEnforcer.FRec).map
          (fun r => (r.itemId, r.score)) := by
  have hfrac : Musibro.FairnessConstraintEnforcer.nicheFraction fairStats [fairRec] [] < 1 := by
    rw [Musibro.FairnessConstraintEnforcer.nicheFraction]
    norm_num [Musibro.FairnessConstraintEnforcer.currentArtists, Musibro.dictGet,
      List.filterMap_cons, List.filterMap_nil]
  exact ⟨hfrac, enforce_fairness_only_flags 1 0 fairStats [fairRec] [] [] hfrac⟩

/-- C9 counterexample: with all component metrics absent (default 0) and an
overall bias score of 1, the weighted combination is -0.1, but the function
returns 0 because it clamps the result into [0, 1] — so the returned overall
score does not equal the plain weighted combination. -/
theorem overall_quality_not_plain_combination :
    Musibro.RecommendationEvaluator.overallQualityScore ⟨none, none, none, none, some 1⟩ ≠
      Musibro.RecommendationEvaluator.specWeightedQuality ⟨none, none, none, none, some 1⟩ := by
  rw [Musibro.RecommendationEvaluator.overallQualityScore,
    Musibro.RecommendationEvaluator.specWeightedQuality]
  norm_num

/-- C9 (amended): the overall quality score equals the weighted linear
combination of the f1, intra-list-diversity, combined-novelty and
genre-coverage scores with weights 0.3 / 0.25 / 0.2 / 0.15 minus 0.1 times
the overall bias score, **clamped into [0, 1]** by `max(0, min(1, ...))`. -/
theorem overall_quality_is_clamped_combination
    (e : Musibro.RecommendationEvaluator.EvalScores) :
    Musibro.RecommendationEvaluator.overallQualityScore e =
      max 0 (min 1 (Musibro.RecommendationEvaluator.specWeightedQuality e)) := rfl

namespace Musibro.RecommendationEvaluator

/-- Folding the dict comprehension over entries whose keys are fresh and
mutually distinct just appends the (id, rating) pairs in order. -/
theorem gtDict_fold_eq :
    ∀ (gt : List GTEntry) (acc : List (String × ℚ)),
      (∀ e ∈ gt, acc.any (fun p => p.1 = e.itemId) = false) →
      (gt.map GTEntry.itemId).Nodup →
      gt.foldl (fun d e => Musibro.dictSet d e.itemId (e.rating.getD 1)) acc =
        acc ++ gt.map (fun e => (e.itemId, e.rating.getD 1)) := by
  intro gt
  induction gt with
  | nil => intro acc _ _; simp
  | cons e es ih =>
    intro acc hacc hnd
    simp only [List.foldl_cons]
    rw [Musibro.dictSet, if_neg (by rw [hacc e (List.mem_cons_self e es)]; simp)]
    rw [ih (acc ++ [(e.itemId, e.rating.getD 1)]) ?_ (List.nodup_cons.mp (by simpa using hnd)).2]
    · simp
    · intro e2 he2
      have h1 : acc.any (fun p => p.1 = e2.itemId) = false :=
        hacc e2 (List.mem_cons_of_mem e he2)
      have h2 : e.itemId ≠ e2.itemId := by
        have hg : e.itemId ∉ es.map GTEntry.itemId :=
          (List.nodup_cons.mp (by simpa using hnd)).1
        intro hEq
        exact hg (hEq ▸ List.mem_map_of_mem GTEntry.itemId he2)
      simp [List.any_append, h1, h2]

/-- With pairwise distinct ids the dict comprehension is just the list of
(id, default-1 rating) pairs. -/
theorem gtDict_eq_map {gt : List GTEntry} (h : (gt.map GTEntry.itemId).Nodup) :
    gtDict gt = gt.map (fun e => (e.itemId, e.rating.getD 1)) := by
  have := gtDict_fold_eq gt [] (by intro e _; simp) h
  simpa [gtDict] using this

/-- With pairwise distinct ids, looking an entry id up in the ground-truth
dict yields that entry's (default-1) rating. -/
theorem dictGet_gt_map {gt : List GTEntry} (h : (gt.map GTEntry.itemId).Nodup) :
    ∀ e ∈ gt,
      Musibro.dictGet (gt.map (fun e2 => (e2.itemId, e2.rating.getD 1))) e.itemId =
        some (e.rating.getD 1) := by
  induction gt with
  | nil => intro e he; cases he
  | cons g gs ih =>
    intro e he
    rcases List.mem_cons.mp he with rfl | he2
    · simp [Musibro.dictGet, List.find?]
    · have hg : g.itemId ∉ gs.map GTEntry.itemId := (List.nodup_cons.mp (by simpa using h)).1
      have hne : ¬ (g.itemId = e.itemId) := by
        intro hEq
        exact hg (hEq ▸ List.mem_map_of_mem GTEntry.itemId he2)
      have htail := ih (List.nodup_cons.mp (by simpa using h)).2 e he2
      simpa [Musibro.dictGet, List.find?, hne] using htail

/-- When every entry of the list looks itself up to a positive rating, the
DCG over the entry ids equals the IDCG over the entry ratings, at every
starting index. -/
theorem dcgAux_eq_idcgAux (gtD : List (String × ℚ)) :
    ∀ (l : List GTEntry) (i : ℕ),
      (∀ e ∈ l, Musibro.dictGet gtD e.itemId = some (e.rating.getD 1) ∧ 0 < e.rating.getD 1) →
      dcgAux gtD (l.map (fun e => ⟨e.itemId⟩)) i =
        idcgAux (l.map (fun e => e.rating.getD 1)) i := by
  intro l
  induction l with
  | nil => intro i _; rfl
  | cons e es ih =>
    intro i hl
    obtain ⟨hg, hpos⟩ := hl e (List.mem_cons_self e es)
    simp only [List.map_cons, dcgAux, idcgAux]
    rw [hg]
    simp only [Option.getD_some]
    rw [if_pos hpos, ih (i + 1) (fun e2 he2 => hl e2 (List.mem_cons_of_mem e he2))]

/-- The discount `log2(i + 2)` is positive. -/
theorem log2R_pos (i : ℕ) : 0 < log2R ((i : ℝ) + 2) := by
  rw [log2R]
  apply div_pos
  · apply Real.log_pos
    have : (0 : ℝ) ≤ i := Nat.cast_nonneg i
    linarith
  · exact Real.log_pos (by norm_num)

theorem idcgAux_nonneg :
    ∀ (l : List ℚ) (i : ℕ), (∀ r ∈ l, 0 ≤ r) → 0 ≤ idcgAux l i := by
  intro l
  induction l with
  | nil => intro i _; exact le_refl 0
  | cons rel rest ih =>
    intro i h
    rw [idcgAux]
    have h1 : (0 : ℝ) ≤ (rel : ℝ) / log2R ((i : ℝ) + 2) :=
      div_nonneg (by exact_mod_cast h rel (List.mem_cons_self rel rest))
        (le_of_lt (log2R_pos i))
    have h2 := ih (i + 1) (fun r hr => h r (List.mem_cons_of_mem rel hr))
    linarith

theorem idcgAux_pos :
    ∀ (l : List ℚ) (i : ℕ), (∀ r ∈ l, 0 < r) → l ≠ [] → 0 < idcgAux l i := by
  intro l
  induction l with
  | nil => intro i _ h; exact absurd rfl h
  | cons rel rest _ =>
    intro i h _
    rw [idcgAux]
    have h1 : (0 : ℝ) < (rel : ℝ) / log2R ((i : ℝ) + 2) :=
      div_pos (by exact_mod_cast h rel (List.mem_cons_self rel rest)) (log2R_pos i)
    have h2 := idcgAux_nonneg rest (i + 1)
      (fun r hr => le_of_lt (h r (List.mem_cons_of_mem rel hr)))
    linarith

end Musibro.RecommendationEvaluator

/-- C4: for a recommendation list ordered identically to the ground-truth
relevance ranking — the ground-truth items (with distinct ids and positive
default-1 ratings) in descending relevance order — `_calculate_ndcg` with
its `1/log2(rank+2)` discounting truncated at k = 10 returns exactly 1. -/
theorem ndcg_of_perfect_order_eq_one (gt : List Musibro.RecommendationEvaluator.GTEntry)
    (hne : gt ≠ [])
    (hnodup : (gt.map Musibro.RecommendationEvaluator.GTEntry.itemId).Nodup)
    (hpos : ∀ e ∈ gt, 0 < e.rating.getD 1)
    (hsorted : gt.Pairwise (fun a b => b.rating.getD 1 ≤ a.rating.getD 1)) :
    Musibro.RecommendationEvaluator.calculateNdcg
      (gt.map (fun e => ⟨e.itemId⟩)) gt 10 = 1 := by
  rw [Musibro.RecommendationEvaluator.calculateNdcg]
  have hdict := Musibro.RecommendationEvaluator.gtDict_eq_map hnodup
  have hvals : (Musibro.RecommendationEvaluator.gtDict gt).map Prod.snd =
      gt.map (fun e => e.rating.getD 1) := by
    rw [hdict, List.map_map]
    rfl
  have hsortvals : Musibro.sortDescBy (fun q : ℚ => q)
      ((Musibro.RecommendationEvaluator.gtDict gt).map Prod.snd) =
      gt.map (fun e => e.rating.getD 1) := by
    rw [hvals]
    exact Musibro.sortDescBy_eq_self _ (List.pairwise_map.mpr hsorted)
  have hdcg : Musibro.RecommendationEvaluator.dcgAux
      (Musibro.RecommendationEvaluator.gtDict gt)
      ((gt.map (fun e => (⟨e.itemId⟩ : Musibro.RecommendationEvaluator.EvalRec))).take 10) 0 =
      Musibro.RecommendationEvaluator.idcgAux
        ((gt.take 10).map (fun e => e.rating.getD 1)) 0 := by
    rw [← List.map_take]
    refine Musibro.RecommendationEvaluator.dcgAux_eq_idcgAux _ (gt.take 10) 0 ?_
    intro e he
    have hmem := List.mem_of_mem_take he
    constructor
    · rw [hdict]
      exact Musibro.RecommendationEvaluator.dictGet_gt_map hnodup e hmem
    · exact hpos e hmem
  have hideal : (Musibro.sortDescBy (fun q : ℚ => q)
      ((Musibro.RecommendationEvaluator.gtDict gt).map Prod.snd)).take 10 =
      (gt.take 10).map (fun e => e.rating.getD 1) := by
    rw [hsortvals, ← List.map_take]
  have hidcg : 0 < Musibro.RecommendationEvaluator.idcgAux
      ((gt.take 10).map (fun e => e.rating.getD 1)) 0 := by
    refine Musibro.RecommendationEvaluator.idcgAux_pos _ 0 ?_ ?_
    · intro r hr
      rcases List.mem_map.mp hr with ⟨e, he, rfl⟩
      exact hpos e (List.mem_of_mem_take he)
    · simp only [ne_eq, List.map_eq_nil_iff, List.take_eq_nil_iff]
      push_neg
      exact ⟨by norm_num, hne⟩
  rw [hideal, hdcg, if_pos hidcg]
  exact div_self (ne_of_gt hidcg)

/-- Witness for C4 at the concrete ground truth: all hypotheses hold and the
NDCG of the identically ordered recommendation list is 1. -/
theorem ndcg_of_perfect_order_eq_one_witness :
    ndcgWitnessGT ≠ [] ∧
      (ndcgWitnessGT.map Musibro.RecommendationEvaluator.GTEntry.itemId).Nodup ∧
      (∀ e ∈ ndcgWitnessGT, 0 < e.rating.getD 1) ∧
      ndcgWitnessGT.Pairwise (fun a b => b.rating.getD 1 ≤ a.rating.getD 1) ∧
      Musibro.RecommendationEvaluator.calculateNdcg
        (ndcgWitnessGT.map (fun e => ⟨e.itemId⟩)) ndcgWitnessGT 10 = 1 :=
  ⟨by decide, by decide, by decide, by decide,
    ndcg_of_perfect_order_eq_one ndcgWitnessGT (by decide) (by decide) (by decide) (by decide)⟩

/-- C5: with an empty ground-truth list, `_calculate_accuracy_metrics`
returns zero for precision, recall, f1 and ndcg (and no counts) instead of
raising an error. -/
theorem accuracy_metrics_zero_on_empty_ground_truth
    (recs : List Musibro.RecommendationEvaluator.EvalRec) :
    Musibro.RecommendationEvaluator.calculateAccuracyMetrics recs [] =
      ⟨0, 0, 0, 0, none⟩ := by
  rw [Musibro.RecommendationEvaluator.calculateAccuracyMetrics, if_pos rfl]
